import Mathlib

/-!
Verification development for the hyperparameter-search orchestration of the
autoencoder_hulm repository, checked against its design specification.

The repository's own code is the two scripts `src/trials/control_trials.py`
and `src/trials/trials_eval_callback.py`.  The orchestration components the
specification describes (Sampler, Pruner/Scheduler, Study/TrialRunner loop)
are realised there by calls into an external library
(`optuna.samplers.TPESampler`, `optuna.pruners.HyperbandPruner`,
`optuna.create_study` / `study.optimize`, `trainer.hyperparameter_search`);
that library code is not part of the repository, so those components are
modelled here from the specification's words, while the helper functions
that do live in the repository (`compute_objective`, `save_metrics`,
`on_save`, `pick_gpu`) are embedded directly from the source.

Numbers (metrics, parameter values, checkpoints) are modelled as rationals;
transcendental maps used by log-uniform sampling are replaced by explicit
truncated rational series, keeping every definition executable.
-/

namespace AEH

/-- A Python dict with string keys and rational values, as an association
list; keys are unique in well-formed dicts, and removal drops every
binding of the key, matching dict semantics. -/
abbrev Dict := List (String × ℚ)

/-- `d[k]` lookup: the first binding of `k`, if any (Python returns it or
raises / yields the `pop` default when absent). -/
def dictGet : Dict → String → Option ℚ
  | [], _ => none
  | (k2, v) :: rest, k => if k2 = k then some v else dictGet rest k

/-- Removal of a key from a dict, as performed by Python `dict.pop`. -/
def dictRemove (d : Dict) (k : String) : Dict :=
  d.filter (fun p => p.1 != k)

/-- The Python heap restricted to the dict objects in scope: an object is an
index into the list, so aliasing and copying are explicit. -/
structure PyHeap where
  dicts : List Dict

/-- `copy.deepcopy` applied to the dict at reference `r`: allocates a fresh
object holding an equal dict and returns its reference. -/
def deepcopy (h : PyHeap) (r : Nat) : PyHeap × Nat :=
  (⟨h.dicts ++ [h.dicts.getD r []]⟩, h.dicts.length)

/-- `d.pop(k, None)` on the dict object at reference `r`: returns the value
bound to `k` (or `none`) and mutates that object, removing the key. -/
def heapPop (h : PyHeap) (r : Nat) (k : String) : Option ℚ × PyHeap :=
  (dictGet (h.dicts.getD r []) k,
   ⟨h.dicts.set r (dictRemove (h.dicts.getD r []) k)⟩)

/-- `compute_objective` from `src/trials/trials_eval_callback.py`
(lines 133-136): deep-copies the metrics dict, pops `eval_loss` from the
copy (defaulting to `None`) and returns it. -/
def compute_objective (h : PyHeap) (r : Nat) : Option ℚ × PyHeap :=
  let copied := deepcopy h r
  heapPop copied.1 copied.2 ("eval_loss")

/-- The files written by `save_metrics`, keyed by path; a `"w"`-mode write
replaces the previous contents of the path. -/
abbrev FileStore := List (String × Dict)

/-- Writing a JSON file at `path`: truncate-and-write, so the store holds
exactly one entry for the path afterwards. -/
def fileWrite (store : FileStore) (path : String) (m : Dict) : FileStore :=
  (path, m) :: store.filter (fun p => p.1 != path)

/-- The path `os.path.join(output_dir, f"{split}_results.json")` built by
`save_metrics`. -/
def metricsPath (split output_dir : String) : String :=
  output_dir ++ ("/") ++ split ++ ("_results.json")

/-- `evalLogsCallback.save_metrics` from `src/trials/trials_eval_callback.py`
(lines 75-78): writes `metrics` as JSON to `{output_dir}/{split}_results.json`,
overwriting any existing file at that path. -/
def save_metrics (store : FileStore) (split : String) (metrics : Dict)
    (output_dir : String) : FileStore :=
  fileWrite store (metricsPath split output_dir) metrics

/-- The callback state read by `on_save`: the metrics captured by the last
`on_evaluate`, and the trainer's best-model checkpoint path. -/
structure CallbackState where
  metrics : Dict
  bestModelCheckpoint : String

/-- The split name `eval_{self.metrics['epoch']}` used by `on_save`; numeric
formatting of the epoch is abstracted by `toString` on the rational value. -/
def saveSplit (cb : CallbackState) : String :=
  ("eval_") ++ toString ((dictGet cb.metrics ("epoch")).getD 0)

/-- The output directory `state.best_model_checkpoint.split('/checkpoint')[0]`
used by `on_save`. -/
def saveDir (cb : CallbackState) : String :=
  ((cb.bestModelCheckpoint.splitOn ("/checkpoint")).headD (""))

/-- `evalLogsCallback.on_save` from `src/trials/trials_eval_callback.py`
(lines 60-63): derives the output directory from the best-model checkpoint
path (everything before `/checkpoint`) and records the held metrics under
split `eval_{epoch}`. -/
def on_save (cb : CallbackState) (store : FileStore) : FileStore :=
  save_metrics store (saveSplit cb) cb.metrics (saveDir cb)

/-- `pick_gpu` from `src/trials/control_trials.py` (lines 169-178), applied
to the per-GPU free-memory values parsed from `nvidia-smi`: scans the GPUs
in order and claims the first whose free memory is exactly 48676 MiB by
exporting `CUDA_VISIBLE_DEVICES`; when no GPU matches, the loop falls
through, nothing is claimed, and no error is raised.  The result is the
claimed index, if any. -/
def pick_gpu (memory_free_values : List Nat) : Option Nat :=
  memory_free_values.findIdx? (fun x => x == 48676)

/-- Outcome of the script's top level: it always reaches the training loop. -/
inductive ScriptOutcome where
  | ranTrials (claimed : Option Nat)
deriving DecidableEq

/-- The top level of `src/trials/control_trials.py` (lines 198-207): calls
`pick_gpu` and then runs the trials unconditionally; the outcome of
`pick_gpu` is never inspected and the script has no exit path there. -/
def scriptMain (memory_free_values : List Nat) : ScriptOutcome :=
  ScriptOutcome.ranTrials (pick_gpu memory_free_values)

/-- Formalisation of the specification's resource-acquisition contract
(spec 4.5 and 6): every acquisition either claims an idle resource or
fails with `NoResourceAvailable` and exits non-zero.  The embedded code
has no failure or exit path — `scriptMain` always proceeds to the trials —
so the contract demands that a resource is always claimed. -/
def acquireAlwaysClaimsOrFails : Prop :=
  ∀ memory_free_values : List Nat, (pick_gpu memory_free_values).isSome

/-! ### Pruner/Scheduler (modelled from the spec) -/

/-- Optimisation direction of a Study (spec 3); `control_trials.py` creates
its study with `direction='minimize'`. -/
inductive Direction where
  | minimize
  | maximize
deriving DecidableEq

/-- Decision returned by the Pruner's `report` (spec 4.2). -/
inductive Decision where
  | cont
  | prune
deriving DecidableEq

/-- Modelled from the spec: configuration of the asynchronous
successive-halving Pruner/Scheduler (spec 4.2), which in the source is the
external `optuna.pruners.HyperbandPruner(max_resource=40)` — its code is
not part of the repository.  Rungs sit at checkpoints 1, r, r^2, ... up to
`maxResource`; `reductionFactor` defaults to 3 and `minTrialsPerRung`
defaults to 4 in the spec. -/
structure PrunerConfig where
  reductionFactor : Nat
  maxResource : ℚ
  minTrialsPerRung : Nat
  direction : Direction
deriving DecidableEq

/-- Association list from a `Nat` key to the list of rationals recorded
under it (used for rung reports and per-trial checkpoints). -/
def assocGet : List (Nat × List ℚ) → Nat → List ℚ
  | [], _ => []
  | (k2, xs) :: rest, k => if k2 = k then xs else assocGet rest k

/-- Append a value at the end of the list recorded under a key. -/
def assocApp : List (Nat × List ℚ) → Nat → ℚ → List (Nat × List ℚ)
  | [], k, x => [(k, [x])]
  | (k2, xs) :: rest, k, x =>
      if k2 = k then (k2, xs ++ [x]) :: rest else (k2, xs) :: assocApp rest k x

/-- Floor of a nonnegative rational as a natural number, computed from the
fraction's parts so that it evaluates by kernel reduction. -/
def natFloor (q : ℚ) : Nat := q.num.toNat / q.den

/-- The geometric rung thresholds 1, r, r^2, ... not exceeding the maximum
resource budget (spec 4.2); thresholds are integers, so they are kept as
naturals. -/
def rungThresholds (r : Nat) (maxR : ℚ) : List Nat :=
  ((List.range (natFloor maxR + 1)).map (fun k => r ^ k)).filter
    (fun t => decide (t ≤ natFloor maxR))

/-- The rung a checkpoint belongs to: the index of the largest threshold
not exceeding it (checkpoints may be fractional, spec 3; an integer
threshold is below a checkpoint exactly when it is below its floor). -/
def rungOf (cfg : PrunerConfig) (cp : ℚ) : Nat :=
  ((rungThresholds cfg.reductionFactor cfg.maxResource).filter
    (fun t => decide (t ≤ natFloor cp))).length - 1

/-- Insertion into a list sorted in ascending order. -/
def insertAsc (x : ℚ) : List ℚ → List ℚ
  | [] => [x]
  | y :: ys => if x ≤ y then x :: y :: ys else y :: insertAsc x ys

/-- Ascending insertion sort. -/
def sortAsc (l : List ℚ) : List ℚ := l.foldr insertAsc []

/-- The metrics of a rung sorted best-first under the direction. -/
def bestFirst (dir : Direction) (l : List ℚ) : List ℚ :=
  match dir with
  | Direction.minimize => sortAsc l
  | Direction.maximize => (sortAsc l).reverse

/-- `a` is at least as good as `b` under the direction. -/
def betterEq (dir : Direction) (a b : ℚ) : Bool :=
  match dir with
  | Direction.minimize => decide (a ≤ b)
  | Direction.maximize => decide (b ≤ a)

/-- Modelled from the spec: the pruning decision of spec 4.2.  A report at a
rung with fewer prior reports than `minTrialsPerRung` is promoted
automatically (grace period); otherwise the metric must fall within the
best 1/r fraction of the reports already at the rung, direction-aware,
else the trial is pruned. -/
def pruneDecision (cfg : PrunerConfig) (prior : List ℚ) (metric : ℚ) : Decision :=
  if prior.length < cfg.minTrialsPerRung then Decision.cont
  else
    let keep := (prior.length + cfg.reductionFactor - 1) / cfg.reductionFactor
    let sorted := bestFirst cfg.direction prior
    let cutoff := sorted.getD (keep - 1) metric
    if betterEq cfg.direction metric cutoff then Decision.cont else Decision.prune

/-- Modelled from the spec: the Pruner's shared state (spec 4.2 and 5) — the
metrics reported at each rung, in arrival order and persisting for the
Study's lifetime, plus each trial's reported checkpoints (for the
input-contract check on report ordering). -/
structure PrunerState where
  rungReports : List (Nat × List ℚ)
  trialCheckpoints : List (Nat × List ℚ)
deriving DecidableEq

/-- Rejection of a report that violates the input contract (spec 4.2 edge
cases): an out-of-order or duplicate checkpoint. -/
inductive ReportError where
  | outOfOrder
deriving DecidableEq

/-- Modelled from the spec: `report(trial_id, checkpoint, metric)` of
spec 4.2, realised in the source by `optuna`'s pruner (external code).  A
checkpoint at or below one the trial already reported is rejected; an
accepted report is recorded at its rung regardless of the decision. -/
def report (cfg : PrunerConfig) (s : PrunerState) (trialId : Nat) (cp metric : ℚ) :
    Except ReportError (Decision × PrunerState) :=
  if (assocGet s.trialCheckpoints trialId).any (fun c => decide (cp ≤ c)) then
    Except.error ReportError.outOfOrder
  else
    let k := rungOf cfg cp
    let d := pruneDecision cfg (assocGet s.rungReports k) metric
    Except.ok (d, { rungReports := assocApp s.rungReports k metric,
                    trialCheckpoints := assocApp s.trialCheckpoints trialId cp })

/-- Every trial's recorded checkpoint sequence is strictly increasing. -/
def checkpointsOrdered (s : PrunerState) : Prop :=
  ∀ tid : Nat, List.Chain' (· < ·) (assocGet s.trialCheckpoints tid)

instance {ε α : Type} [DecidableEq ε] [DecidableEq α] : DecidableEq (Except ε α) := fun a b =>
  match a, b with
  | Except.error e1, Except.error e2 =>
      if h : e1 = e2 then Decidable.isTrue (by rw [h])
      else Decidable.isFalse (fun hc => h (Except.error.inj hc))
  | Except.error _, Except.ok _ => Decidable.isFalse (fun hc => Except.noConfusion hc)
  | Except.ok _, Except.error _ => Decidable.isFalse (fun hc => Except.noConfusion hc)
  | Except.ok v1, Except.ok v2 =>
      if h : v1 = v2 then Decidable.isTrue (by rw [h])
      else Decidable.isFalse (fun hc => h (Except.ok.inj hc))

/-! ### Sampler (modelled from the spec) -/

/-- Modelled from the spec: the seeded pseudo-random source of spec 4.1
(the source seeds `optuna.samplers.TPESampler(seed=42)`, whose code is
external to the repository), as a 64-bit linear congruential generator. -/
def lcgNext (s : Nat) : Nat :=
  (6364136223846793005 * s + 1442695040888963407) % 18446744073709551616

/-- One draw: a rational in `[0, 1)` from the current state, and the next
state. -/
def rngStep (s : Nat) : ℚ × Nat :=
  (((s % 18446744073709551616 : Nat) : ℚ) / (18446744073709551616 : ℚ), lcgNext s)

/-- Truncated Taylor series for `exp`, keeping the embedding rational and
executable. -/
def expQ (x : ℚ) : ℚ :=
  ((List.range 8).map (fun i => x ^ i / (Nat.factorial i : ℚ))).sum

/-- Truncated `atanh`-series approximation of the natural logarithm,
rational and executable (sound for positive arguments). -/
def lnQ (z : ℚ) : ℚ :=
  2 * ((List.range 5).map
    (fun i => ((z - 1) / (z + 1)) ^ (2 * i + 1) / ((2 * i + 1 : Nat) : ℚ))).sum

/-- A distribution descriptor of the SearchSpace (spec 3): categorical,
float-uniform or float-log-uniform. -/
inductive Dist where
  | categorical (choices : List ℚ)
  | floatUniform (low high : ℚ)
  | floatLogUniform (low high : ℚ)
deriving DecidableEq

/-- A declarative search space: parameter names with their distributions
(spec 3); `control_trials.py` tunes `grad_acc` (categorical),
`learning_rate` (log-uniform) and `weight_decay` (uniform). -/
abbrev SearchSpace := List (String × Dist)

/-- A sampled configuration: parameter name to value. -/
abbrev Params := List (String × ℚ)

/-- The Sampler's view of past trials (spec 4.1): (params, objective)
pairs of terminal, non-failed trials. -/
abbrev History := List (Params × ℚ)

/-- Sampling from a parameter's prior at quantile `u ∈ [0,1)` (spec 4.1):
uniform choice for categorical, affine for float-uniform, and uniform in
log space (through the rational `exp`/`ln` approximations) for
float-log-uniform. -/
def priorDraw (d : Dist) (u : ℚ) : ℚ :=
  match d with
  | Dist.categorical choices => choices.getD (⌊u * (choices.length : ℚ)⌋.toNat) 0
  | Dist.floatUniform low high => low + u * (high - low)
  | Dist.floatLogUniform low high => expQ (lnQ low + u * (lnQ high - lnQ low))

/-- Modelled from the spec: Sampler configuration (spec 4.1) — the warm-up
trial count, the good/bad quantile γ, the number of candidates drawn from
the good density, and the Study's direction, which orients "good". -/
structure SamplerConfig where
  warmup : Nat
  gamma : ℚ
  nCandidates : Nat
  direction : Direction
deriving DecidableEq

/-- Insertion of a history entry into a list sorted best-objective-first. -/
def insertByObj (dir : Direction) (x : Params × ℚ) :
    List (Params × ℚ) → List (Params × ℚ)
  | [] => [x]
  | y :: ys =>
      if betterEq dir x.2 y.2 then x :: y :: ys else y :: insertByObj dir x ys

/-- The history sorted best-objective-first under the direction. -/
def sortByObj (dir : Direction) (h : History) : History :=
  h.foldr (insertByObj dir) []

/-- The size of the "good" set: the best ⌈γ·n⌉ of the n observed trials
(at least one). -/
def goodCount (cfg : SamplerConfig) (n : Nat) : Nat :=
  max 1 (⌈cfg.gamma * (n : ℚ)⌉.toNat)

/-- The good/bad split of the history at the quantile threshold γ
(spec 4.1): the best ⌈γ·n⌉ trials against the rest. -/
def splitGoodBad (cfg : SamplerConfig) (h : History) : History × History :=
  let sorted := sortByObj cfg.direction h
  (sorted.take (goodCount cfg h.length), sorted.drop (goodCount cfg h.length))

/-- The values a set of trials observed for one parameter. -/
def valuesOf (h : History) (name : String) : List ℚ :=
  h.filterMap (fun e => dictGet e.1 name)

/-- Kernel density estimate with a rational Cauchy-like kernel. -/
def kde (xs : List ℚ) (x : ℚ) : ℚ :=
  (xs.map (fun xi => 1 / (1 + (x - xi) ^ 2))).sum

/-- Draw `k` candidate values from the density fitted to the good set:
each is a good observation picked at random, perturbed by bounded noise. -/
def drawCandidates (goodVals : List ℚ) : Nat → Nat → List ℚ × Nat
  | 0, rng => ([], rng)
  | Nat.succ k, rng =>
      let d1 := rngStep rng
      let d2 := rngStep d1.2
      let base := goodVals.getD (⌊d1.1 * (goodVals.length : ℚ)⌋.toNat) 0
      let rest := drawCandidates goodVals k d2.2
      ((base + (d2.1 - 1 / 2)) :: rest.1, rest.2)

/-- The expected-improvement-style acquisition score: the density ratio of
the good fit to the bad fit (spec 4.1). -/
def acqScore (goodVals badVals : List ℚ) (x : ℚ) : ℚ :=
  kde goodVals x / kde badVals x

/-- The candidate maximising the acquisition score. -/
def pickBest (goodVals badVals : List ℚ) : List ℚ → ℚ
  | [] => 0
  | c :: cs => cs.foldl
      (fun best x =>
        if acqScore goodVals badVals best < acqScore goodVals badVals x then x
        else best) c

/-- Modelled from the spec: the one-parameter proposal of the
tree/kernel-density Sampler (spec 4.1), realised in the source by
`optuna.samplers.TPESampler` (external code).  Below the warm-up count the
prior is sampled directly; otherwise continuous parameters score
candidates drawn from the good density by the good/bad density ratio, and
categorical parameters are resampled frequency-weighted from the good
set.  An empty history, or an empty good set (e.g. all trials pruned),
falls back to the prior and never fails (spec 4.1 edge cases). -/
def suggestParam (cfg : SamplerConfig) (history : History) (name : String)
    (d : Dist) (rng : Nat) : ℚ × Nat :=
  if history.length < cfg.warmup then
    let dr := rngStep rng
    (priorDraw d dr.1, dr.2)
  else
    let gb := splitGoodBad cfg history
    let goodVals := valuesOf gb.1 name
    let badVals := valuesOf gb.2 name
    match d with
    | Dist.categorical _ =>
        let dr := rngStep rng
        if goodVals.isEmpty then (priorDraw d dr.1, dr.2)
        else (goodVals.getD (⌊dr.1 * (goodVals.length : ℚ)⌋.toNat) 0, dr.2)
    | _ =>
        if goodVals.isEmpty then
          let dr := rngStep rng
          (priorDraw d dr.1, dr.2)
        else
          let cand := drawCandidates goodVals cfg.nCandidates rng
          (pickBest goodVals badVals cand.1, cand.2)

/-- Modelled from the spec: `suggest(search_space, history)` (spec 4.1) —
proposes a value for each parameter independently, threading the seeded
pseudo-random state. -/
def suggest (cfg : SamplerConfig) (space : SearchSpace) (history : History)
    (rng : Nat) : Params × Nat :=
  match space with
  | [] => ([], rng)
  | (name, d) :: rest =>
      let v := suggestParam cfg history name d rng
      let ps := suggest cfg rest history v.2
      ((name, v.1) :: ps.1, ps.2)

/-- One run of the Study's repeated calls to `suggest`: starting from a
seed, each round is handed the trial history at that point and yields the
next proposal, threading the pseudo-random state (spec 4.1, 8). -/
inductive SuggestRun (cfg : SamplerConfig) (space : SearchSpace) :
    Nat → List History → List Params → Prop where
  | nil (rng : Nat) : SuggestRun cfg space rng [] []
  | step (rng : Nat) (h : History) (hs : List History) (p : Params)
      (rng2 : Nat) (ps : List Params) :
      suggest cfg space h rng = (p, rng2) →
      SuggestRun cfg space rng2 hs ps →
      SuggestRun cfg space rng (h :: hs) (p :: ps)

/-! ### TrialRunner, Study, MetricsLedger (modelled from the spec) -/

/-- Trial status (spec 3). -/
inductive Status where
  | pending
  | running
  | pruned
  | completed
  | failed
deriving DecidableEq

/-- One step of the external training/evaluation collaborator (spec 6):
progress at a checkpoint, normal completion with a final metric, or an
unrecoverable failure. -/
inductive StepResult where
  | progress (checkpoint metric : ℚ)
  | done (finalMetric : ℚ)
  | failure (reason : String)
deriving DecidableEq

/-- The collaborator — out of scope for the core (spec 1) — as an opaque
stream of step results. -/
abbrev CollaboratorScript := List StepResult

/-- A Trial (spec 3): id, sampled params, status, the (checkpoint, metric)
history, and the final metric (present iff Completed). -/
structure Trial where
  id : Nat
  params : Params
  status : Status
  history : List (ℚ × ℚ)
  finalMetric : Option ℚ
deriving DecidableEq

/-- The outcome of driving one trial: the terminal Trial, the Pruner state
to carry into the next trial, and how many collaborator steps ran. -/
structure RunResult where
  trial : Trial
  pruner : PrunerState
  stepsConsumed : Nat
deriving DecidableEq

/-- Modelled from the spec: the body of `TrialRunner.run` (spec 4.3),
realised in the source by the `objective` closure with `MyPrunerCallback`
raising `optuna.TrialPruned` (external control flow).  Each progress step
is reported to the Pruner; a `prune` decision stops the run cooperatively
— no later step executes — and the trial ends `Pruned` with the history
collected so far; `done` ends it `Completed` with the final metric; a
collaborator failure (as well as a report-contract violation or a script
ending without `done`) ends it `Failed`, and the Pruner state reverts to
`ps0`, so a failed trial contributes no rung comparisons (spec 4.3, 7, 8). -/
def runTrialGo (cfg : PrunerConfig) (tid : Nat) (params : Params)
    (ps0 : PrunerState) (ps : PrunerState) (hist : List (ℚ × ℚ))
    (consumed : Nat) : CollaboratorScript → RunResult
  | [] =>
      { trial := { id := tid, params := params, status := Status.failed,
                   history := hist, finalMetric := none },
        pruner := ps0, stepsConsumed := consumed }
  | StepResult.progress cp m :: rest =>
      match report cfg ps tid cp m with
      | Except.error _ =>
          { trial := { id := tid, params := params, status := Status.failed,
                       history := hist, finalMetric := none },
            pruner := ps0, stepsConsumed := consumed + 1 }
      | Except.ok (Decision.cont, ps2) =>
          runTrialGo cfg tid params ps0 ps2 (hist ++ [(cp, m)]) (consumed + 1) rest
      | Except.ok (Decision.prune, ps2) =>
          { trial := { id := tid, params := params, status := Status.pruned,
                       history := hist ++ [(cp, m)], finalMetric := none },
            pruner := ps2, stepsConsumed := consumed + 1 }
  | StepResult.done f :: _ =>
      { trial := { id := tid, params := params, status := Status.completed,
                   history := hist, finalMetric := some f },
        pruner := ps, stepsConsumed := consumed + 1 }
  | StepResult.failure _ :: _ =>
      { trial := { id := tid, params := params, status := Status.failed,
                   history := hist, finalMetric := none },
        pruner := ps0, stepsConsumed := consumed + 1 }

/-- `TrialRunner.run` (spec 4.3) for one trial. -/
def runTrial (cfg : PrunerConfig) (tid : Nat) (params : Params)
    (ps : PrunerState) (script : CollaboratorScript) : RunResult :=
  runTrialGo cfg tid params ps ps [] 0 script

/-- The (checkpoint, metric) pairs of the progress steps of a script. -/
def progressPairs (steps : CollaboratorScript) : List (ℚ × ℚ) :=
  steps.filterMap (fun st =>
    match st with
    | StepResult.progress cp m => some (cp, m)
    | _ => none)

/-- The objective the Sampler sees for a terminal, non-failed trial
(spec 4.1): the final metric of a Completed trial, the last reported
metric of a Pruned one; Failed (and non-terminal) trials contribute
nothing. -/
def trialObjective (t : Trial) : Option ℚ :=
  match t.status with
  | Status.completed => t.finalMetric
  | Status.pruned => (t.history.map Prod.snd).getLast?
  | _ => none

/-- The Sampler history of a study record (spec 4.1, 7): Failed trials are
excluded. -/
def samplerHistory (trials : List Trial) : History :=
  trials.filterMap (fun t => (trialObjective t).map (fun m => (t.params, m)))

/-- Modelled from the spec: Study configuration (spec 4.6), realised in
the source by `optuna.create_study` (external code). -/
structure StudyConfig where
  prunerCfg : PrunerConfig
  samplerCfg : SamplerConfig
  space : SearchSpace
deriving DecidableEq

/-- Modelled from the spec: the Study's mutable state — the ordered trial
record, the Pruner's shared rung state and the pseudo-random state. -/
structure StudyState where
  trials : List Trial
  pruner : PrunerState
  rng : Nat
deriving DecidableEq

/-- Modelled from the spec: one iteration of the Study loop (spec 4.6):
ask the Sampler for a configuration, run the trial, append the outcome to
the record; trial ids are assigned monotonically. -/
def studyStep (cfg : StudyConfig) (s : StudyState)
    (script : CollaboratorScript) : StudyState :=
  let sug := suggest cfg.samplerCfg cfg.space (samplerHistory s.trials) s.rng
  let res := runTrial cfg.prunerCfg s.trials.length sug.1 s.pruner script
  { trials := s.trials ++ [res.trial], pruner := res.pruner, rng := sug.2 }

/-- Modelled from the spec: the Study loop over a budget of trials
(spec 4.6); each element of `scripts` is one trial's collaborator. -/
def studyLoop (cfg : StudyConfig) (s : StudyState) :
    List CollaboratorScript → StudyState
  | [] => s
  | sc :: rest => studyLoop cfg (studyStep cfg s sc) rest

/-- A fresh study state from a seed. -/
def initState (seed : Nat) : StudyState :=
  { trials := [],
    pruner := { rungReports := [], trialCheckpoints := [] },
    rng := seed }

/-- The process-fatal error taxonomy (spec 7). -/
inductive FatalError where
  | noResourceAvailable
  | configurationError
deriving DecidableEq

/-- Modelled from the spec: `ResourceSelector.acquire` (spec 4.5) — claims
the first compute resource reporting itself idle, or fails with
`NoResourceAvailable`. -/
def acquire (idle : List Bool) : Except FatalError Nat :=
  match idle.findIdx? (fun b => b) with
  | some j => Except.ok j
  | none => Except.error FatalError.noResourceAvailable

/-- The SearchSpace invariant of spec 3: choices non-empty for
categoricals, low < high for range types. -/
def validSpace (space : SearchSpace) : Bool :=
  space.all (fun p =>
    match p.2 with
    | Dist.categorical choices => !choices.isEmpty
    | Dist.floatUniform low high => decide (low < high)
    | Dist.floatLogUniform low high => decide (low < high))

/-- Modelled from the spec: the whole process (spec 4.6, 6, 7): resource
acquisition and search-space validation may abort fatally before any
trial runs; afterwards the Study loop is a total function — per-trial
failures are recorded in the trial record, never escalated. -/
def runProcess (idle : List Bool) (cfg : StudyConfig) (seed : Nat)
    (scripts : List CollaboratorScript) : Except FatalError StudyState :=
  match acquire idle with
  | Except.error e => Except.error e
  | Except.ok _ =>
      if validSpace cfg.space then
        Except.ok (studyLoop cfg (initState seed) scripts)
      else Except.error FatalError.configurationError

/-- The objective `best()` compares: a Completed trial's final metric. -/
def finalObj (t : Trial) : ℚ := t.finalMetric.getD 0

/-- `t` beats `u` as best-trial candidate: strictly smaller final metric
(the study direction is minimize), or equal metrics and a smaller id
(spec 3: ties broken by lowest trial id). -/
def betterBest (t u : Trial) : Bool :=
  decide (finalObj t < finalObj u) ||
    (decide (finalObj t = finalObj u) && decide (t.id < u.id))

/-- One step of the `best()` fold: a Completed trial displaces the current
candidate exactly when it beats it. -/
def bestStep (acc : Option Trial) (t : Trial) : Option Trial :=
  if t.status = Status.completed then
    match acc with
    | none => some t
    | some b => if betterBest t b then some t else some b
  else acc

/-- The fold underlying `best()`. -/
def bestAux (acc : Option Trial) : List Trial → Option Trial
  | [] => acc
  | t :: rest => bestAux (bestStep acc t) rest

/-- Modelled from the spec: `best()` (spec 3, 4.4) — the Completed trial
with the extremal final metric under the direction, ties broken by lowest
id, `none` when no trial completed; realised in the source by
`study.best_trial` (external code). -/
def bestOf (trials : List Trial) : Option Trial :=
  bestAux none trials

/-- Modelled from the spec: `MetricsLedger.record` (spec 4.4) — an
idempotent append of a terminal trial keyed by trial id. -/
def recordTrial (led : List Trial) (t : Trial) : List Trial :=
  led.filter (fun u => u.id != t.id) ++ [t]

/-- The persisted ledger of a whole study record. -/
def ledgerOf (trials : List Trial) : List Trial :=
  trials.foldl recordTrial []

/-- `x` is at least as good a (metric, id) key as `y`. -/
def leKey (x y : Trial) : Prop :=
  finalObj x < finalObj y ∨ (finalObj x = finalObj y ∧ x.id ≤ y.id)

/-- `x` is strictly better as a (metric, id) key than `y`. -/
def ltKey (x y : Trial) : Prop :=
  finalObj x < finalObj y ∨ (finalObj x = finalObj y ∧ x.id < y.id)

/-- A concrete study configuration over the empty search space, used to
instantiate loop-level statements on concrete inputs. -/
def scfgW : StudyConfig :=
  ⟨⟨3, 40, 4, Direction.minimize⟩, ⟨10, 1 / 4, 3, Direction.minimize⟩, []⟩

/-! ### Theorems -/

/-- Helper: a truncate-and-write is absorbed by an identical rewrite. -/
theorem fileWrite_self (store : FileStore) (path : String) (m : Dict) :
    fileWrite (fileWrite store path m) path m = fileWrite store path m := by
  simp [fileWrite, List.filter_filter]

/-- Helper: after a write, the store holds exactly one entry at the path. -/
theorem fileWrite_countP (store : FileStore) (path : String) (m : Dict) :
    (fileWrite store path m).countP (fun p => p.1 == path) = 1 := by
  simp only [fileWrite, List.countP_cons]
  have h0 : (store.filter (fun p => p.1 != path)).countP (fun p => p.1 == path) = 0 := by
    rw [List.countP_eq_zero]
    intro a ha
    have := (List.mem_filter.mp ha).2
    simpa using this
  simp [h0]

/-- C10: `compute_objective` returns the value stored under `eval_loss`
(`none` when the key is absent) and leaves the caller's metrics dict
unchanged, because the pop acts on a deep copy. -/
theorem compute_objective_frame (h : PyHeap) (r : Nat) (hr : r < h.dicts.length) :
    (compute_objective h r).1 = dictGet (h.dicts.getD r []) ("eval_loss") ∧
    ((compute_objective h r).2).dicts[r]? = h.dicts[r]? := by
  constructor
  · simp [compute_objective, deepcopy, heapPop, List.getD,
      List.getElem?_concat_length]
  · have hne : h.dicts.length ≠ r := Nat.ne_of_gt hr
    simp only [compute_objective, deepcopy, heapPop]
    rw [List.getElem?_set_ne hne, List.getElem?_append]
    simp [hr]

/-- Witness for C10 at a one-dict heap. -/
theorem compute_objective_frame_witness :
    0 < (PyHeap.mk [[(("eval_loss"), (5 : ℚ))]]).dicts.length ∧
    ((compute_objective (PyHeap.mk [[(("eval_loss"), (5 : ℚ))]]) 0).1 =
        dictGet ((PyHeap.mk [[(("eval_loss"), (5 : ℚ))]]).dicts.getD 0 []) ("eval_loss") ∧
      ((compute_objective (PyHeap.mk [[(("eval_loss"), (5 : ℚ))]]) 0).2).dicts[0]? =
        (PyHeap.mk [[(("eval_loss"), (5 : ℚ))]]).dicts[0]?) :=
  ⟨by decide, compute_objective_frame (PyHeap.mk [[(("eval_loss"), (5 : ℚ))]]) 0 (by decide)⟩

/-- C8: recording the same terminal trial twice via `on_save` leaves the
store exactly as one recording does, and the store then holds exactly one
entry at the trial's path. -/
theorem record_idempotent (cb : CallbackState) (store : FileStore) :
    on_save cb (on_save cb store) = on_save cb store ∧
    (on_save cb store).countP
      (fun p => p.1 == metricsPath (saveSplit cb) (saveDir cb)) = 1 := by
  constructor
  · simp only [on_save, save_metrics]
    exact fileWrite_self store (metricsPath (saveSplit cb) (saveDir cb)) cb.metrics
  · simp only [on_save, save_metrics]
    exact fileWrite_countP store (metricsPath (saveSplit cb) (saveDir cb)) cb.metrics

/-- C6 counterexample: with two GPUs reporting 100 and 200 MiB free, the
source's `pick_gpu` claims nothing, raises nothing, and the script still
proceeds to run the trials — refuting the contract that acquisition either
claims a resource or fails with a non-zero exit. -/
theorem pick_gpu_counterexample :
    pick_gpu [100, 200] = none ∧
    scriptMain [100, 200] = ScriptOutcome.ranTrials none ∧
    ¬ acquireAlwaysClaimsOrFails := by
  refine ⟨by decide, by decide, fun hall => ?_⟩
  have h100 := hall [100, 200]
  revert h100
  decide

/-- C6 amended: every invocation of `pick_gpu` either claims exactly the
first GPU whose free memory is exactly 48676 MiB, or (when no GPU reports
that value) claims nothing; in both cases the script proceeds to run the
trials without any failure or exit. -/
theorem pick_gpu_first_match_or_silent (mem : List Nat) :
    (∃ j, pick_gpu mem = some j ∧ mem[j]? = some 48676 ∧
      (∀ i, i < j → mem[i]? ≠ some 48676) ∧
      scriptMain mem = ScriptOutcome.ranTrials (some j)) ∨
    (pick_gpu mem = none ∧ (∀ v ∈ mem, v ≠ 48676) ∧
      scriptMain mem = ScriptOutcome.ranTrials none) := by
  have main_eq : ∀ l : List Nat, scriptMain l = ScriptOutcome.ranTrials (pick_gpu l) :=
    fun _ => rfl
  induction mem with
  | nil =>
      right
      exact ⟨rfl, by simp, rfl⟩
  | cons x xs ih =>
      by_cases hx : x = 48676
      · left
        refine ⟨0, ?_, ?_, ?_, ?_⟩
        · simp [pick_gpu, List.findIdx?_cons, hx]
        · simp [hx]
        · intro i hi
          exact absurd hi (Nat.not_lt_zero i)
        · rw [main_eq]
          simp [pick_gpu, List.findIdx?_cons, hx]
      · have hx2 : (x == 48676) = false := by simp [hx]
        rcases ih with ⟨j, hj, hjv, hjmin, _⟩ | ⟨hnone, hall, _⟩
        · left
          refine ⟨j + 1, ?_, ?_, ?_, ?_⟩
          · simp [pick_gpu, List.findIdx?_cons, hx2]
            simpa [pick_gpu] using hj
          · simpa using hjv
          · intro i hi
            match i with
            | 0 => simpa using hx
            | Nat.succ i2 =>
                have : i2 < j := Nat.lt_of_succ_lt_succ hi
                simpa using hjmin i2 this
          · rw [main_eq]
            have : pick_gpu (x :: xs) = some (j + 1) := by
              simp [pick_gpu, List.findIdx?_cons, hx2]
              simpa [pick_gpu] using hj
            rw [this]
        · right
          refine ⟨?_, ?_, ?_⟩
          · simp [pick_gpu, List.findIdx?_cons, hx2]
            simpa [pick_gpu] using hnone
          · intro v hv
            rcases List.mem_cons.mp hv with hv0 | hv2
            · simpa [hv0] using hx
            · exact hall v hv2
          · rw [main_eq]
            have : pick_gpu (x :: xs) = none := by
              simp [pick_gpu, List.findIdx?_cons, hx2]
              simpa [pick_gpu] using hnone
            rw [this]

/-- Helper: appending under a key extends exactly that key's list. -/
theorem assocGet_app_self (l : List (Nat × List ℚ)) (k : Nat) (x : ℚ) :
    assocGet (assocApp l k x) k = assocGet l k ++ [x] := by
  induction l with
  | nil => simp [assocGet, assocApp]
  | cons p rest ih =>
      by_cases hk : p.1 = k
      · simp [assocGet, assocApp, hk]
      · simp [assocGet, assocApp, hk, ih]

/-- Helper: appending under a key leaves other keys' lists unchanged. -/
theorem assocGet_app_ne (l : List (Nat × List ℚ)) (k k2 : Nat) (x : ℚ)
    (h : k2 ≠ k) : assocGet (assocApp l k x) k2 = assocGet l k2 := by
  have hne : k ≠ k2 := fun hh => h hh.symm
  induction l with
  | nil => simp [assocGet, assocApp, hne]
  | cons p rest ih =>
      obtain ⟨k1, xs⟩ := p
      by_cases hk : k1 = k
      · subst hk
        simp [assocGet, assocApp, hne]
      · by_cases hk3 : k1 = k2
        · simp [assocGet, assocApp, hk, hk3, h]
        · simp [assocGet, assocApp, hk, hk3, ih]

/-- Helper: a decision taken with fewer prior reports than the
minimum-trials threshold, or with no prior reports at all, is `cont`. -/
theorem pruneDecision_grace (cfg : PrunerConfig) (prior : List ℚ) (m : ℚ)
    (hfew : prior.length < cfg.minTrialsPerRung ∨ prior = []) :
    pruneDecision cfg prior m = Decision.cont := by
  rcases hfew with hlt | hnil
  · simp [pruneDecision, hlt]
  · subst hnil
    by_cases hmin : 0 < cfg.minTrialsPerRung
    · simp [pruneDecision, hmin]
    · have : (0 : ℚ) ≤ 0 := le_refl 0
      cases hdir : cfg.direction <;>
        simp [pruneDecision, hmin, bestFirst, sortAsc, betterEq, hdir]

/-- C2: a trial reporting at a rung where fewer than the
minimum-trials-per-rung threshold have already reported — in particular the
first trial ever to report at the rung — is never pruned there. -/
theorem report_grace_period (cfg : PrunerConfig) (s : PrunerState) (tid : Nat)
    (cp m : ℚ) (d : Decision) (s2 : PrunerState)
    (hok : report cfg s tid cp m = Except.ok (d, s2))
    (hfew : (assocGet s.rungReports (rungOf cfg cp)).length < cfg.minTrialsPerRung ∨
            assocGet s.rungReports (rungOf cfg cp) = []) :
    d = Decision.cont := by
  rw [report] at hok
  split at hok
  · exact absurd hok (by simp)
  · have hd : pruneDecision cfg (assocGet s.rungReports (rungOf cfg cp)) m = d := by
      have := hok
      simp at this
      exact this.1
    rw [← hd]
    exact pruneDecision_grace cfg _ m hfew

/-- Witness for C2: the very first report of a fresh study is not pruned. -/
theorem report_grace_period_witness :
    report (PrunerConfig.mk 3 40 4 Direction.minimize) (PrunerState.mk [] []) 0 1 2
        = Except.ok (Decision.cont, PrunerState.mk [(0, [2])] [(0, [1])]) ∧
      Decision.cont = Decision.cont :=
  ⟨by decide,
   report_grace_period (PrunerConfig.mk 3 40 4 Direction.minimize)
     (PrunerState.mk [] []) 0 1 2 Decision.cont
     (PrunerState.mk [(0, [2])] [(0, [1])]) (by decide)
     (Or.inr (by simp [assocGet]))⟩

/-- C7: a report whose checkpoint is at or below one the trial already
reported is rejected as an input-contract violation, and accepted reports
keep every trial's recorded checkpoint sequence strictly increasing. -/
theorem report_checkpoint_contract (cfg : PrunerConfig) (s : PrunerState)
    (tid : Nat) (cp m : ℚ) :
    ((∃ c ∈ assocGet s.trialCheckpoints tid, cp ≤ c) →
        report cfg s tid cp m = Except.error ReportError.outOfOrder) ∧
    (∀ d s2, report cfg s tid cp m = Except.ok (d, s2) →
        checkpointsOrdered s → checkpointsOrdered s2) := by
  constructor
  · intro hex
    have hany : (assocGet s.trialCheckpoints tid).any (fun c => decide (cp ≤ c)) = true := by
      rw [List.any_eq_true]
      rcases hex with ⟨c, hc, hle⟩
      exact ⟨c, hc, by simpa using hle⟩
    rw [report, if_pos hany]
  · intro d s2 hok hord
    rw [report] at hok
    split at hok
    · exact absurd hok (by simp)
    · rename_i hany
      have hlt : ∀ c ∈ assocGet s.trialCheckpoints tid, c < cp := by
        intro c hc
        by_contra hnot
        have hle : cp ≤ c := le_of_not_lt hnot
        exact hany (by
          rw [List.any_eq_true]
          exact ⟨c, hc, by simpa using hle⟩)
      have hs2 : s2.trialCheckpoints = assocApp s.trialCheckpoints tid cp := by
        have := hok
        simp at this
        rw [← this.2]
      intro tid2
      by_cases htid : tid2 = tid
      · subst htid
        rw [hs2, assocGet_app_self]
        rw [List.chain'_append]
        refine ⟨hord tid2, List.chain'_singleton cp, ?_⟩
        intro x hx y hy
        simp at hy
        subst hy
        refine hlt x ?_
        rcases List.mem_getLast?_eq_getLast hx with ⟨hne, hxe⟩
        rw [hxe]
        exact List.getLast_mem hne
      · rw [hs2, assocGet_app_ne _ _ _ _ htid]
        exact hord tid2

/-- Witness for C7: a duplicate checkpoint is rejected, and a fresh
accepted report leaves the checkpoint sequences strictly increasing. -/
theorem report_checkpoint_contract_witness :
    report (PrunerConfig.mk 3 40 4 Direction.minimize)
        (PrunerState.mk [] [(0, [2])]) 0 1 5 = Except.error ReportError.outOfOrder ∧
      checkpointsOrdered (PrunerState.mk [(0, [5])] [(0, [1])]) :=
  ⟨(report_checkpoint_contract (PrunerConfig.mk 3 40 4 Direction.minimize)
      (PrunerState.mk [] [(0, [2])]) 0 1 5).1
      ⟨2, by simp [assocGet], by norm_num⟩,
   (report_checkpoint_contract (PrunerConfig.mk 3 40 4 Direction.minimize)
      (PrunerState.mk [] []) 0 1 5).2 Decision.cont
      (PrunerState.mk [(0, [5])] [(0, [1])]) (by decide)
      (fun tid => by simp [assocGet])⟩

/-- C1: with the same fixed seed, the same search space and the same
sequence of trial histories, two runs of the Sampler's `suggest` produce
identical sequences of proposals. -/
theorem suggest_deterministic (cfg : SamplerConfig) (space : SearchSpace)
    (seed : Nat) (hs : List History) (ps1 ps2 : List Params)
    (r1 : SuggestRun cfg space seed hs ps1)
    (r2 : SuggestRun cfg space seed hs ps2) : ps1 = ps2 := by
  induction r1 generalizing ps2 with
  | nil rng =>
      cases r2
      rfl
  | step rng h hs p rng2 ps hsug hrun ih =>
      cases r2 with
      | step rng_ h_ hs_ p2 rng3 ps4 hsug2 hrun2 =>
          rw [hsug] at hsug2
          injection hsug2 with hp hr
          subst hp
          subst hr
          rw [ih ps4 hrun2]

/-- Witness for C1: two one-round runs over the source's categorical
grad-acc parameter with seed 42 and an empty history coincide. -/
theorem suggest_deterministic_witness :
    [(suggest ⟨10, 1 / 4, 3, Direction.minimize⟩
        [(("grad_acc"), Dist.categorical [2, 4, 8, 16, 32])] [] 42).1] =
      [(suggest ⟨10, 1 / 4, 3, Direction.minimize⟩
        [(("grad_acc"), Dist.categorical [2, 4, 8, 16, 32])] [] 42).1] :=
  suggest_deterministic ⟨10, 1 / 4, 3, Direction.minimize⟩
    [(("grad_acc"), Dist.categorical [2, 4, 8, 16, 32])] 42 [[]] _ _
    (SuggestRun.step 42 [] [] _ _ [] rfl (SuggestRun.nil _))
    (SuggestRun.step 42 [] [] _ _ [] rfl (SuggestRun.nil _))

/-- Helper: a pruned run consumed at least one step, at most the script,
ends with no final metric, and its history is exactly the progress pairs
of the consumed prefix. -/
theorem runTrialGo_pruned_spec (cfg : PrunerConfig) (tid : Nat) (params : Params)
    (ps0 : PrunerState) :
    ∀ (script : CollaboratorScript) (ps : PrunerState) (hist : List (ℚ × ℚ)) (n : Nat),
      (runTrialGo cfg tid params ps0 ps hist n script).trial.status = Status.pruned →
      n < (runTrialGo cfg tid params ps0 ps hist n script).stepsConsumed ∧
      (runTrialGo cfg tid params ps0 ps hist n script).stepsConsumed ≤ n + script.length ∧
      (runTrialGo cfg tid params ps0 ps hist n script).trial.finalMetric = none ∧
      (runTrialGo cfg tid params ps0 ps hist n script).trial.history =
        hist ++ progressPairs (script.take
          ((runTrialGo cfg tid params ps0 ps hist n script).stepsConsumed - n)) := by
  intro script
  induction script with
  | nil =>
      intro ps hist n hstat
      simp [runTrialGo] at hstat
  | cons st rest ih =>
      intro ps hist n hstat
      cases st with
      | progress cp m =>
          rcases hrep : report cfg ps tid cp m with e | ⟨d, ps2⟩
          · simp only [runTrialGo, hrep] at hstat
            simp at hstat
          · cases d with
            | cont =>
                simp only [runTrialGo, hrep] at hstat ⊢
                obtain ⟨h1, h2, h3, h4⟩ := ih ps2 (hist ++ [(cp, m)]) (n + 1) hstat
                refine ⟨by omega, by simp only [List.length_cons]; omega, h3, ?_⟩
                rw [h4]
                have hsc :
                    (runTrialGo cfg tid params ps0 ps2 (hist ++ [(cp, m)]) (n + 1) rest).stepsConsumed - n =
                      ((runTrialGo cfg tid params ps0 ps2 (hist ++ [(cp, m)]) (n + 1) rest).stepsConsumed - (n + 1)) + 1 := by
                  omega
                rw [hsc, List.take_succ_cons]
                simp [progressPairs]
            | prune =>
                simp only [runTrialGo, hrep] at hstat ⊢
                have h1 : n + 1 - n = 1 := by omega
                refine ⟨by omega, by simp only [List.length_cons]; omega, by trivial, ?_⟩
                rw [h1, List.take_succ_cons, List.take_zero]
                simp [progressPairs]
      | done f =>
          simp [runTrialGo] at hstat
      | failure r =>
          simp [runTrialGo] at hstat

/-- Helper: a run that ends `Failed` hands back the Pruner state it was
started with — the failed trial's reports are rolled back. -/
theorem runTrialGo_failed_pruner (cfg : PrunerConfig) (tid : Nat) (params : Params)
    (ps0 : PrunerState) :
    ∀ (script : CollaboratorScript) (ps : PrunerState) (hist : List (ℚ × ℚ)) (n : Nat),
      (runTrialGo cfg tid params ps0 ps hist n script).trial.status = Status.failed →
      (runTrialGo cfg tid params ps0 ps hist n script).pruner = ps0 := by
  intro script
  induction script with
  | nil =>
      intro ps hist n _
      simp [runTrialGo]
  | cons st rest ih =>
      intro ps hist n hstat
      cases st with
      | progress cp m =>
          rcases hrep : report cfg ps tid cp m with e | ⟨d, ps2⟩
          · simp [runTrialGo, hrep]
          · cases d with
            | cont =>
                simp only [runTrialGo, hrep] at hstat ⊢
                exact ih ps2 (hist ++ [(cp, m)]) (n + 1) hstat
            | prune =>
                simp only [runTrialGo, hrep] at hstat
                simp at hstat
      | done f =>
          simp [runTrialGo] at hstat
      | failure r =>
          simp [runTrialGo]

/-- Helper: the trial record a run returns carries the id it was given. -/
theorem runTrialGo_trial_id (cfg : PrunerConfig) (tid : Nat) (params : Params)
    (ps0 : PrunerState) :
    ∀ (script : CollaboratorScript) (ps : PrunerState) (hist : List (ℚ × ℚ)) (n : Nat),
      (runTrialGo cfg tid params ps0 ps hist n script).trial.id = tid := by
  intro script
  induction script with
  | nil =>
      intro ps hist n
      rfl
  | cons st rest ih =>
      intro ps hist n
      cases st with
      | progress cp m =>
          rcases hrep : report cfg ps tid cp m with e | ⟨d, ps2⟩
          · simp [runTrialGo, hrep]
          · cases d with
            | cont =>
                simp only [runTrialGo, hrep]
                exact ih ps2 (hist ++ [(cp, m)]) (n + 1)
            | prune =>
                simp [runTrialGo, hrep]
      | done f => rfl
      | failure r => rfl

/-- Helper: each study step appends exactly one trial to the record. -/
theorem studyStep_length (cfg : StudyConfig) (s : StudyState)
    (sc : CollaboratorScript) :
    (studyStep cfg s sc).trials.length = s.trials.length + 1 := by
  simp [studyStep]

/-- Helper: the Study loop appends one trial per script — it never aborts
early, whatever the trials' outcomes. -/
theorem studyLoop_length (cfg : StudyConfig) :
    ∀ (scripts : List CollaboratorScript) (s : StudyState),
      (studyLoop cfg s scripts).trials.length = s.trials.length + scripts.length := by
  intro scripts
  induction scripts with
  | nil =>
      intro s
      simp [studyLoop]
  | cons sc rest ih =>
      intro s
      rw [studyLoop, ih, studyStep_length]
      simp only [List.length_cons]
      omega

/-- Helper: the Study record's trial ids are the positions at which the
trials were appended. -/
theorem studyLoop_ids (cfg : StudyConfig) :
    ∀ (scripts : List CollaboratorScript) (s : StudyState),
      (studyLoop cfg s scripts).trials.map Trial.id =
        s.trials.map Trial.id ++ List.range' s.trials.length scripts.length := by
  intro scripts
  induction scripts with
  | nil =>
      intro s
      simp [studyLoop]
  | cons sc rest ih =>
      intro s
      rw [studyLoop, ih, studyStep_length]
      have hlen : (studyStep cfg s sc).trials.map Trial.id =
          s.trials.map Trial.id ++ [s.trials.length] := by
        simp only [studyStep, List.map_append, List.map_cons, List.map_nil]
        rw [runTrial, runTrialGo_trial_id]
      rw [hlen, List.append_assoc]
      simp [List.range'_succ]

/-- C3: a trial the Pruner decides to prune stops cooperatively: it ends in
terminal status `Pruned` — not `Failed` — with no final metric, having
consumed at least one and at most all collaborator steps, its history is
exactly the metric reports collected up to the pruning checkpoint, and the
Study loop still runs every remaining trial. -/
theorem prune_cooperative (cfg : PrunerConfig) (tid : Nat) (params : Params)
    (ps : PrunerState) (script : CollaboratorScript)
    (hpruned : (runTrial cfg tid params ps script).trial.status = Status.pruned) :
    (runTrial cfg tid params ps script).trial.status ≠ Status.failed ∧
    (runTrial cfg tid params ps script).trial.finalMetric = none ∧
    0 < (runTrial cfg tid params ps script).stepsConsumed ∧
    (runTrial cfg tid params ps script).stepsConsumed ≤ script.length ∧
    (runTrial cfg tid params ps script).trial.history =
      progressPairs (script.take ((runTrial cfg tid params ps script).stepsConsumed)) ∧
    ∀ (scfg : StudyConfig) (s : StudyState) (rest : List CollaboratorScript),
      (studyLoop scfg s (script :: rest)).trials.length =
        s.trials.length + 1 + rest.length := by
  obtain ⟨h1, h2, h3, h4⟩ :=
    runTrialGo_pruned_spec cfg tid params ps script ps [] 0 hpruned
  refine ⟨?_, h3, h1, by simpa using h2, by simpa using h4, ?_⟩
  · rw [hpruned]
    simp
  · intro scfg s rest
    rw [studyLoop_length]
    simp only [List.length_cons]
    omega

/-- Witness for C3: with four prior reports of metric 1 at rung 0, a trial
reporting metric 2 at checkpoint 1 is pruned after one step. -/
theorem prune_cooperative_witness :
    (runTrial ⟨3, 40, 4, Direction.minimize⟩ 0 []
        (PrunerState.mk [(0, [1, 1, 1, 1])] []) [StepResult.progress 1 2]).trial.status ≠
      Status.failed ∧
    (runTrial ⟨3, 40, 4, Direction.minimize⟩ 0 []
        (PrunerState.mk [(0, [1, 1, 1, 1])] []) [StepResult.progress 1 2]).trial.finalMetric = none ∧
    0 < (runTrial ⟨3, 40, 4, Direction.minimize⟩ 0 []
        (PrunerState.mk [(0, [1, 1, 1, 1])] []) [StepResult.progress 1 2]).stepsConsumed ∧
    (runTrial ⟨3, 40, 4, Direction.minimize⟩ 0 []
        (PrunerState.mk [(0, [1, 1, 1, 1])] []) [StepResult.progress 1 2]).stepsConsumed ≤
      ([StepResult.progress 1 2] : CollaboratorScript).length ∧
    (runTrial ⟨3, 40, 4, Direction.minimize⟩ 0 []
        (PrunerState.mk [(0, [1, 1, 1, 1])] []) [StepResult.progress 1 2]).trial.history =
      progressPairs (([StepResult.progress 1 2] : CollaboratorScript).take
        ((runTrial ⟨3, 40, 4, Direction.minimize⟩ 0 []
          (PrunerState.mk [(0, [1, 1, 1, 1])] []) [StepResult.progress 1 2]).stepsConsumed)) ∧
    (studyLoop scfgW (initState 0) ([StepResult.progress 1 2] :: [])).trials.length =
      (initState 0).trials.length + 1 + ([] : List CollaboratorScript).length := by
  have h := prune_cooperative ⟨3, 40, 4, Direction.minimize⟩ 0 []
    (PrunerState.mk [(0, [1, 1, 1, 1])] []) [StepResult.progress 1 2] (by decide)
  exact ⟨h.1, h.2.1, h.2.2.1, h.2.2.2.1, h.2.2.2.2.1,
    h.2.2.2.2.2 scfgW (initState 0) []⟩

/-- C4: executing one trial is total for the Study: each step appends
exactly one trial whatever happens; a trial that ends `Failed` leaves the
Pruner's rung state exactly as it was and adds nothing to the Sampler
history; the loop runs one trial per script to the end; and the only
process-fatal outcomes are failed resource acquisition and a malformed
search space. -/
theorem trial_failure_isolated (cfg : StudyConfig) (s : StudyState)
    (script : CollaboratorScript) :
    ((studyStep cfg s script).trials.length = s.trials.length + 1) ∧
    (∀ t, (studyStep cfg s script).trials = s.trials ++ [t] →
      t.status = Status.failed →
      (studyStep cfg s script).pruner = s.pruner ∧
      samplerHistory ((studyStep cfg s script).trials) = samplerHistory s.trials) ∧
    (∀ scripts : List CollaboratorScript,
      (studyLoop cfg s scripts).trials.length = s.trials.length + scripts.length) ∧
    (∀ (idle : List Bool) (seed : Nat) (scripts : List CollaboratorScript)
        (e : FatalError), runProcess idle cfg seed scripts = Except.error e →
      (e = FatalError.noResourceAvailable ∧ acquire idle = Except.error e) ∨
      (e = FatalError.configurationError ∧ validSpace cfg.space = false)) := by
  refine ⟨studyStep_length cfg s script, ?_, fun scripts => studyLoop_length cfg scripts s, ?_⟩
  · intro t hEq hFail
    have hTrials : (studyStep cfg s script).trials =
        s.trials ++ [(runTrial cfg.prunerCfg s.trials.length
          (suggest cfg.samplerCfg cfg.space (samplerHistory s.trials) s.rng).1
          s.pruner script).trial] := rfl
    rw [hTrials] at hEq
    have hsingle : [(runTrial cfg.prunerCfg s.trials.length
        (suggest cfg.samplerCfg cfg.space (samplerHistory s.trials) s.rng).1
        s.pruner script).trial] = [t] := by
      exact List.append_cancel_left hEq
    have htr : (runTrial cfg.prunerCfg s.trials.length
        (suggest cfg.samplerCfg cfg.space (samplerHistory s.trials) s.rng).1
        s.pruner script).trial = t := by
      injection hsingle
    constructor
    · have hstat : (runTrial cfg.prunerCfg s.trials.length
          (suggest cfg.samplerCfg cfg.space (samplerHistory s.trials) s.rng).1
          s.pruner script).trial.status = Status.failed := by
        rw [htr]
        exact hFail
      exact runTrialGo_failed_pruner cfg.prunerCfg s.trials.length
        (suggest cfg.samplerCfg cfg.space (samplerHistory s.trials) s.rng).1
        s.pruner script s.pruner [] 0 hstat
    · rw [hTrials, htr]
      have hobj : trialObjective t = none := by
        simp [trialObjective, hFail]
      simp [samplerHistory, hobj]
  · intro idle seed scripts e hProc
    rcases hfind : idle.findIdx? (fun b => b) with _ | j
    · have hacq : acquire idle = Except.error FatalError.noResourceAvailable := by
        simp [acquire, hfind]
      left
      rw [runProcess, hacq] at hProc
      have he : e = FatalError.noResourceAvailable := by
        cases hProc
        rfl
      rw [he]
      exact ⟨rfl, hacq⟩
    · have hacq : acquire idle = Except.ok j := by
        simp [acquire, hfind]
      by_cases hv : validSpace cfg.space = true
      · rw [runProcess, hacq] at hProc
        rw [if_pos hv] at hProc
        exact absurd hProc (by simp)
      · right
        rw [runProcess, hacq] at hProc
        rw [if_neg hv] at hProc
        have he : e = FatalError.configurationError := by
          cases hProc
          rfl
        exact ⟨he, by simpa using hv⟩

/-- Witness for C4: a collaborator failing at the first checkpoint leaves
the fresh study's pruner and sampler history untouched, and an empty
resource fleet is the fatal acquisition failure. -/
theorem trial_failure_isolated_witness :
    ((studyStep scfgW (initState 0) [StepResult.failure ("x")]).pruner =
        (initState 0).pruner ∧
      samplerHistory ((studyStep scfgW (initState 0)
          [StepResult.failure ("x")]).trials) =
        samplerHistory ((initState 0).trials)) ∧
    ((FatalError.noResourceAvailable = FatalError.noResourceAvailable ∧
        acquire [] = Except.error FatalError.noResourceAvailable) ∨
      (FatalError.noResourceAvailable = FatalError.configurationError ∧
        validSpace scfgW.space = false)) :=
  ⟨(trial_failure_isolated scfgW (initState 0) [StepResult.failure ("x")]).2.1
      (Trial.mk 0 [] Status.failed [] none) (by decide) (by decide),
   (trial_failure_isolated scfgW (initState 0) [StepResult.failure ("x")]).2.2.2
      [] 0 [] FatalError.noResourceAvailable (by decide)⟩

/-- Helper: `leKey` is reflexive. -/
theorem leKey_refl (x : Trial) : leKey x x :=
  Or.inr ⟨rfl, le_refl x.id⟩

/-- Helper: `leKey` is transitive. -/
theorem leKey_trans {x y z : Trial} (h1 : leKey x y) (h2 : leKey y z) :
    leKey x z := by
  rcases h1 with h1 | ⟨h1, h1b⟩ <;> rcases h2 with h2 | ⟨h2, h2b⟩
  · exact Or.inl (lt_trans h1 h2)
  · exact Or.inl (lt_of_lt_of_le h1 (le_of_eq h2))
  · exact Or.inl (lt_of_le_of_lt (le_of_eq h1) h2)
  · exact Or.inr ⟨h1.trans h2, le_trans h1b h2b⟩

/-- Helper: `leKey` composed with a strict step stays `leKey`. -/
theorem leKey_ltKey_trans {x y z : Trial} (h1 : leKey x y) (h2 : ltKey y z) :
    leKey x z := by
  rcases h1 with h1 | ⟨h1, h1b⟩ <;> rcases h2 with h2 | ⟨h2, h2b⟩
  · exact Or.inl (lt_trans h1 h2)
  · exact Or.inl (lt_of_lt_of_le h1 (le_of_eq h2))
  · exact Or.inl (lt_of_le_of_lt (le_of_eq h1) h2)
  · exact Or.inr ⟨h1.trans h2, le_trans h1b (le_of_lt h2b)⟩

/-- Helper: `betterBest` decides the strict key order. -/
theorem betterBest_true_iff (t u : Trial) : betterBest t u = true ↔ ltKey t u := by
  simp [betterBest, ltKey]

/-- Helper: failing to beat means being at most as good. -/
theorem betterBest_false_iff (t u : Trial) : betterBest t u = false ↔ leKey u t := by
  rw [← Bool.not_eq_true, betterBest_true_iff]
  unfold ltKey leKey
  constructor
  · intro hnot
    push_neg at hnot
    obtain ⟨h1, h2⟩ := hnot
    rcases eq_or_lt_of_le h1 with heq | hlt
    · exact Or.inr ⟨heq, h2 heq.symm⟩
    · exact Or.inl hlt
  · intro hle hcon
    rcases hcon with h1 | ⟨h2, h3⟩
    · rcases hle with h4 | ⟨h4, _⟩
      · exact absurd h1 (not_lt.mpr (le_of_lt h4))
      · exact absurd h1 (not_lt.mpr (le_of_eq h4))
    · rcases hle with h4 | ⟨h4, h5⟩
      · exact absurd h4 (not_lt.mpr (le_of_eq h2))
      · exact absurd h3 (Nat.not_lt.mpr h5)

/-- Helper: the `best()` fold step never drops a candidate. -/
theorem bestStep_eq_none_iff (acc : Option Trial) (t : Trial) :
    bestStep acc t = none ↔ acc = none ∧ t.status ≠ Status.completed := by
  by_cases hc : t.status = Status.completed
  · cases acc with
    | none => simp [bestStep, hc]
    | some b =>
        simp only [bestStep, if_pos hc]
        constructor
        · intro h
          split at h <;> cases h
        · rintro ⟨h, _⟩
          cases h
  · simp [bestStep, hc]

/-- Helper: `best()` is `none` exactly on records without Completed trials. -/
theorem bestAux_none_iff :
    ∀ (l : List Trial) (acc : Option Trial),
      bestAux acc l = none ↔ acc = none ∧ ∀ t ∈ l, t.status ≠ Status.completed := by
  intro l
  induction l with
  | nil =>
      intro acc
      simp [bestAux]
  | cons t rest ih =>
      intro acc
      rw [bestAux, ih, bestStep_eq_none_iff]
      constructor
      · rintro ⟨⟨hacc, hct⟩, hrest⟩
        refine ⟨hacc, ?_⟩
        intro u hu
        rcases List.mem_cons.mp hu with hEq | hmem
        · rw [hEq]
          exact hct
        · exact hrest u hmem
      · rintro ⟨hacc, hall⟩
        exact ⟨⟨hacc, hall t (List.mem_cons_self t rest)⟩,
          fun u hu => hall u (List.mem_cons_of_mem t hu)⟩

/-- Helper: a `best()` result is the carried candidate or a Completed
trial of the record. -/
theorem bestAux_mem :
    ∀ (l : List Trial) (acc : Option Trial) (b : Trial),
      bestAux acc l = some b →
      acc = some b ∨ (b ∈ l ∧ b.status = Status.completed) := by
  intro l
  induction l with
  | nil =>
      intro acc b h
      simp [bestAux] at h
      exact Or.inl h
  | cons t rest ih =>
      intro acc b h
      rw [bestAux] at h
      rcases ih (bestStep acc t) b h with hstep | ⟨hmem, hcomp⟩
      · by_cases hc : t.status = Status.completed
        · cases acc with
          | none =>
              simp [bestStep, hc] at hstep
              exact Or.inr ⟨by rw [← hstep]; exact List.mem_cons_self t rest, by rw [← hstep]; exact hc⟩
          | some a =>
              simp only [bestStep, if_pos hc] at hstep
              rcases hbb : betterBest t a with _ | _
              · rw [hbb] at hstep
                simp at hstep
                exact Or.inl (by rw [hstep])
              · rw [hbb] at hstep
                simp at hstep
                exact Or.inr ⟨by rw [← hstep]; exact List.mem_cons_self t rest, by rw [← hstep]; exact hc⟩
        · simp [bestStep, hc] at hstep
          exact Or.inl hstep
      · exact Or.inr ⟨List.mem_cons_of_mem t hmem, hcomp⟩

/-- Helper: a `best()` result is at least as good (by metric, then id) as
the carried candidate and as every Completed trial of the record. -/
theorem bestAux_le :
    ∀ (l : List Trial) (acc : Option Trial) (b : Trial),
      bestAux acc l = some b →
      (∀ a, acc = some a → leKey b a) ∧
      (∀ t ∈ l, t.status = Status.completed → leKey b t) := by
  intro l
  induction l with
  | nil =>
      intro acc b h
      simp [bestAux] at h
      refine ⟨?_, by simp⟩
      intro a ha
      rw [h] at ha
      injection ha with ha2
      rw [← ha2]
      exact leKey_refl b
  | cons t rest ih =>
      intro acc b h
      rw [bestAux] at h
      obtain ⟨ihacc, ihrest⟩ := ih (bestStep acc t) b h
      have hkey : ∀ a, acc = some a → leKey b a := by
        intro a ha
        by_cases hc : t.status = Status.completed
        · rcases hbb : betterBest t a with _ | _
          · refine ihacc a ?_
            simp [bestStep, hc, ha, hbb]
          · have hbt : leKey b t := by
              refine ihacc t ?_
              simp [bestStep, hc, ha, hbb]
            exact leKey_ltKey_trans hbt ((betterBest_true_iff t a).mp hbb)
        · refine ihacc a ?_
          simp [bestStep, hc, ha]
      refine ⟨hkey, ?_⟩
      intro u hu hcomp
      rcases List.mem_cons.mp hu with hEq | hmem
      · subst hEq
        cases hacc : acc with
        | none =>
            refine ihacc u ?_
            simp [bestStep, hcomp, hacc]
        | some a =>
            rcases hbb : betterBest u a with _ | _
            · have hba : leKey b a := by
                refine ihacc a ?_
                simp [bestStep, hcomp, hacc, hbb]
              exact leKey_trans hba ((betterBest_false_iff u a).mp hbb)
            · refine ihacc u ?_
              simp [bestStep, hcomp, hacc, hbb]
      · exact ihrest u hmem hcomp

/-- Helper: recording trials with pairwise-distinct ids in order rebuilds
the record itself. -/
theorem ledger_foldl :
    ∀ (trials led : List Trial),
      ((led ++ trials).map Trial.id).Nodup →
      List.foldl recordTrial led trials = led ++ trials := by
  intro trials
  induction trials with
  | nil =>
      intro led _
      simp
  | cons t ts ih =>
      intro led hnd
      rw [List.foldl_cons]
      have hid : t.id ∉ led.map Trial.id := by
        rw [List.map_append] at hnd
        have hdisj := (List.nodup_append.mp hnd).2.2
        intro hmem
        exact hdisj hmem (by simp)
      have hfilter : recordTrial led t = led ++ [t] := by
        rw [recordTrial]
        congr 1
        apply List.filter_eq_self.mpr
        intro u hu
        simp only [bne_iff_ne, ne_eq]
        intro heq
        exact hid (List.mem_map.mpr ⟨u, hu, heq⟩)
      rw [hfilter]
      rw [ih (led ++ [t]) (by simpa using hnd)]
      simp

/-- C5: `best()` returns a Completed trial minimal in final metric under
the study's minimize direction with ties broken by lowest id (and is
`none` exactly when nothing completed); recomputing it from the persisted
ledger gives the same trial; and a Study record always has
pairwise-distinct trial ids, so the ledger hypothesis holds for every
completed Study. -/
theorem best_correct (trials : List Trial) :
    (∀ b, bestOf trials = some b →
      b ∈ trials ∧ b.status = Status.completed ∧
      ∀ t ∈ trials, t.status = Status.completed →
        finalObj b < finalObj t ∨ (finalObj b = finalObj t ∧ b.id ≤ t.id)) ∧
    (bestOf trials = none → ∀ t ∈ trials, t.status ≠ Status.completed) ∧
    ((trials.map Trial.id).Nodup → bestOf (ledgerOf trials) = bestOf trials) ∧
    (∀ (cfg : StudyConfig) (seed : Nat) (scripts : List CollaboratorScript),
      ((studyLoop cfg (initState seed) scripts).trials.map Trial.id).Nodup) := by
  refine ⟨?_, ?_, ?_, ?_⟩
  · intro b hb
    rcases bestAux_mem trials none b hb with hnone | ⟨hmem, hcomp⟩
    · cases hnone
    · obtain ⟨_, hmin⟩ := bestAux_le trials none b hb
      exact ⟨hmem, hcomp, fun t ht hc => hmin t ht hc⟩
  · intro hnone
    exact ((bestAux_none_iff trials none).mp hnone).2
  · intro hnodup
    rw [ledgerOf, ledger_foldl trials [] (by simpa using hnodup)]
    simp
  · intro cfg seed scripts
    rw [studyLoop_ids]
    simp [initState, List.nodup_range']

/-- Witness for C5: on a two-trial record the later, smaller-metric trial
is best, and the ledger recomputation agrees. -/
theorem best_correct_witness :
    (Trial.mk 1 [] Status.completed [] (some 1) ∈
        [Trial.mk 0 [] Status.completed [] (some 3),
         Trial.mk 1 [] Status.completed [] (some 1)] ∧
      (Trial.mk 1 [] Status.completed [] (some 1)).status = Status.completed ∧
      ∀ t ∈ [Trial.mk 0 [] Status.completed [] (some 3),
             Trial.mk 1 [] Status.completed [] (some 1)],
        t.status = Status.completed →
        finalObj (Trial.mk 1 [] Status.completed [] (some 1)) < finalObj t ∨
          (finalObj (Trial.mk 1 [] Status.completed [] (some 1)) = finalObj t ∧
            (Trial.mk 1 [] Status.completed [] (some 1)).id ≤ t.id)) ∧
    bestOf (ledgerOf [Trial.mk 0 [] Status.completed [] (some 3),
        Trial.mk 1 [] Status.completed [] (some 1)]) =
      bestOf [Trial.mk 0 [] Status.completed [] (some 3),
        Trial.mk 1 [] Status.completed [] (some 1)] :=
  ⟨(best_correct [Trial.mk 0 [] Status.completed [] (some 3),
      Trial.mk 1 [] Status.completed [] (some 1)]).1
      (Trial.mk 1 [] Status.completed [] (some 1)) (by decide),
   (best_correct [Trial.mk 0 [] Status.completed [] (some 3),
      Trial.mk 1 [] Status.completed [] (some 1)]).2.2.1 (by decide)⟩

end AEH
